import Mathlib

/-!
Verification of the port-resolution core of vcpkg-tool
(src/vcpkg/registries.cpp and src/vcpkg/portfileprovider.cpp).

The C++ functions are shallowly embedded as executable Lean definitions.
External collaborators (filesystem, git backend, JSON parser, recipe
loader) are passed in as explicit environment records of functions, so
every embedded operation is a pure function of its environment and
arguments.  Machine integers (size_t) are modelled as Nat; SIZE_MAX is
the explicit constant 2^64 - 1.
-/

namespace Vcpkg

/-- SIZE_MAX on the 64-bit targets vcpkg builds for: 2^64 - 1. -/
def SIZE_MAX : Nat := 2 ^ 64 - 1

/-- Embedding of vcpkg's package_pattern_match (registries.cpp).
The C++ checks, in order: if the pattern is nonempty and its last
character is a star, score pattern.size() when the first
pattern.size() - 1 characters of the pattern equal the first characters
of the name (std::equal guarded by a length check); otherwise, if the
name equals the pattern, score SIZE_MAX; otherwise 0. -/
def package_pattern_match (name pattern : String) : Nat :=
  if pattern.data.getLast? = some '*' then
    if pattern.data.length - 1 ≤ name.data.length ∧
        name.data.take (pattern.data.length - 1) = pattern.data.dropLast
    then pattern.data.length
    else 0
  else if name = pattern then SIZE_MAX
  else 0

/-- Claim C1: package_pattern_match returns the pattern's length when the
pattern ends in a star and the name starts with the pattern minus its
trailing star (rendered as: the first pattern.length - 1 characters of
the name are exactly pattern.dropLast); SIZE_MAX when the pattern does
not end in a star and the name equals the pattern; and 0 otherwise.
In particular it maps ("curl", "curl") to SIZE_MAX, ("curl", "cu*")
to 3, ("curl", "cu") to 0 and ("curl", "*") to 1. -/
theorem package_pattern_match_spec :
    (∀ name pattern : String,
      (pattern.data.getLast? = some '*' ∧
          name.data.take (pattern.data.length - 1) = pattern.data.dropLast →
        package_pattern_match name pattern = pattern.data.length) ∧
      (pattern.data.getLast? ≠ some '*' ∧ name = pattern →
        package_pattern_match name pattern = SIZE_MAX) ∧
      (¬ (pattern.data.getLast? = some '*' ∧
            name.data.take (pattern.data.length - 1) = pattern.data.dropLast) ∧
       ¬ (pattern.data.getLast? ≠ some '*' ∧ name = pattern) →
        package_pattern_match name pattern = 0)) ∧
    package_pattern_match "curl" "curl" = SIZE_MAX ∧
    package_pattern_match "curl" "cu*" = 3 ∧
    package_pattern_match "curl" "cu" = 0 ∧
    package_pattern_match "curl" "*" = 1 := by
  refine ⟨fun name pattern => ⟨?_, ?_, ?_⟩, by decide, by decide, by decide, by decide⟩
  · rintro ⟨hstar, htake⟩
    have hlen : pattern.data.length - 1 ≤ name.data.length := by
      have h := congrArg List.length htake
      rw [List.length_take, List.length_dropLast] at h
      omega
    unfold package_pattern_match
    rw [if_pos hstar, if_pos ⟨hlen, htake⟩]
  · rintro ⟨hstar, heq⟩
    unfold package_pattern_match
    rw [if_neg hstar, if_pos heq]
  · rintro ⟨h1, h2⟩
    by_cases hstar : pattern.data.getLast? = some '*'
    · have htake : ¬ (pattern.data.length - 1 ≤ name.data.length ∧
          name.data.take (pattern.data.length - 1) = pattern.data.dropLast) := by
        rintro ⟨-, h⟩; exact h1 ⟨hstar, h⟩
      unfold package_pattern_match
      rw [if_pos hstar, if_neg htake]
    · have heq : ¬ name = pattern := by
        intro h; exact h2 ⟨hstar, h⟩
      unfold package_pattern_match
      rw [if_neg hstar, if_neg heq]

/-- Witness for package_pattern_match_spec: its implications discharged
at the concrete inputs from the claim. -/
theorem package_pattern_match_spec_witness :
    package_pattern_match "curl" "cu*" = "cu*".data.length ∧
    package_pattern_match "curl" "curl" = SIZE_MAX ∧
    package_pattern_match "curl" "cu" = 0 :=
  ⟨(package_pattern_match_spec.1 "curl" "cu*").1 (by decide),
   (package_pattern_match_spec.1 "curl" "curl").2.1 (by decide),
   (package_pattern_match_spec.1 "curl" "cu").2.2 (by decide)⟩

/-! ## RegistrySet routing (claim C2) -/

/-- Embedding of a Registry route record: its glob patterns and the
identity of its RegistryImplementation (registry implementations are
modelled by their pointer identity, a Nat). -/
structure Registry where
  patterns : List String
  impl : Nat
deriving DecidableEq

/-- One entry of the local candidates vector in
RegistrySet::registries_for_port: an implementation together with the
maximum score its patterns achieved (the C++ member matched-prefix). -/
structure RegistryCandidate where
  impl : Nat
  score : Nat
deriving DecidableEq

/-- The inner loop of registries_for_port: the running maximum of
package_pattern_match over a registry's patterns, starting at 0. -/
def max_pattern_score (name : String) (patterns : List String) : Nat :=
  patterns.foldl (fun acc p => max acc (package_pattern_match name p)) 0

/-- The candidates vector built by registries_for_port, in configuration
order: one entry per registry whose maximum pattern score is nonzero. -/
def registry_candidates (regs : List Registry) (name : String) :
    List RegistryCandidate :=
  regs.filterMap fun r =>
    let score := max_pattern_score name r.patterns
    if score ≠ 0 then some ⟨r.impl, score⟩ else none

/-- One insertion step of a stable descending insertion sort on scores:
x passes over exactly the elements with a strictly greater score, so
equal-score elements keep their original relative order. -/
def insert_desc (x : RegistryCandidate) :
    List RegistryCandidate → List RegistryCandidate
  | [] => [x]
  | y :: ys => if y.score ≤ x.score then x :: y :: ys else y :: insert_desc x ys

/-- Model of std::stable_sort with comparator lhs.matched-prefix >
rhs.matched-prefix, as a stable insertion sort (the stable descending
sort of a list is unique, so any stable sort models it). -/
def stable_sort_desc : List RegistryCandidate → List RegistryCandidate
  | [] => []
  | x :: xs => insert_desc x (stable_sort_desc xs)

/-- Embedding of RegistrySet::registries_for_port: build the candidates,
return empty if none, otherwise stable-sort descending by score and map
each candidate to its implementation. -/
def registries_for_port (regs : List Registry) (name : String) : List Nat :=
  let candidates := registry_candidates regs name
  if candidates.isEmpty then []
  else (stable_sort_desc candidates).map RegistryCandidate.impl

/-- Embedding of RegistrySet::registry_for_port: the first entry of
registries_for_port, or the default registry (which may be absent)
when the candidate list is empty. -/
def registry_for_port (regs : List Registry) (default_reg : Option Nat)
    (name : String) : Option Nat :=
  match registries_for_port regs name with
  | [] => default_reg
  | c :: _ => some c

theorem insert_desc_perm (x : RegistryCandidate) :
    ∀ l : List RegistryCandidate, (insert_desc x l).Perm (x :: l) := by
  intro l
  induction l with
  | nil => simp [insert_desc]
  | cons y ys ih =>
    by_cases h : y.score ≤ x.score
    · simp [insert_desc, h]
    · rw [insert_desc, if_neg h]
      exact (ih.cons y).trans (List.Perm.swap x y ys)

theorem stable_sort_desc_perm :
    ∀ l : List RegistryCandidate, (stable_sort_desc l).Perm l := by
  intro l
  induction l with
  | nil => simp [stable_sort_desc]
  | cons x xs ih =>
    exact (insert_desc_perm x (stable_sort_desc xs)).trans (ih.cons x)

theorem insert_desc_pairwise (x : RegistryCandidate)
    (l : List RegistryCandidate)
    (hl : l.Pairwise (fun a b => b.score ≤ a.score)) :
    (insert_desc x l).Pairwise (fun a b => b.score ≤ a.score) := by
  induction l with
  | nil => simp [insert_desc]
  | cons y ys ih =>
    rcases List.pairwise_cons.mp hl with ⟨hy, hys⟩
    by_cases h : y.score ≤ x.score
    · rw [insert_desc, if_pos h]
      refine List.pairwise_cons.mpr ⟨?_, hl⟩
      intro z hz
      rcases List.mem_cons.mp hz with hz' | hz'
      · subst hz'; exact h
      · exact le_trans (hy z hz') h
    · rw [insert_desc, if_neg h]
      refine List.pairwise_cons.mpr ⟨?_, ih hys⟩
      intro z hz
      rcases List.mem_cons.mp ((insert_desc_perm x ys).mem_iff.mp hz) with hz' | hz'
      · subst hz'; omega
      · exact hy z hz'

theorem stable_sort_desc_pairwise :
    ∀ l : List RegistryCandidate,
      (stable_sort_desc l).Pairwise (fun a b => b.score ≤ a.score) := by
  intro l
  induction l with
  | nil => simp [stable_sort_desc]
  | cons x xs ih => exact insert_desc_pairwise x (stable_sort_desc xs) ih

theorem insert_desc_filter_score (x : RegistryCandidate) (s : Nat) :
    ∀ l : List RegistryCandidate,
      (insert_desc x l).filter (fun c => c.score = s) =
        if x.score = s then x :: l.filter (fun c => c.score = s)
        else l.filter (fun c => c.score = s) := by
  intro l
  induction l with
  | nil =>
    by_cases hx : x.score = s <;> simp [insert_desc, hx]
  | cons y ys ih =>
    by_cases h : y.score ≤ x.score
    · rw [insert_desc, if_pos h]
      by_cases hx : x.score = s <;>
        by_cases hy : y.score = s <;>
          simp [List.filter_cons, hx, hy]
    · rw [insert_desc, if_neg h]
      by_cases hx : x.score = s
      · have hy : ¬ y.score = s := by omega
        simp [List.filter_cons, hx, hy, ih]
      · by_cases hy : y.score = s <;> simp [List.filter_cons, hx, hy, ih]

theorem stable_sort_desc_filter_score (s : Nat) :
    ∀ l : List RegistryCandidate,
      (stable_sort_desc l).filter (fun c => c.score = s) =
        l.filter (fun c => c.score = s) := by
  intro l
  induction l with
  | nil => simp [stable_sort_desc]
  | cons x xs ih =>
    rw [stable_sort_desc, insert_desc_filter_score]
    by_cases hx : x.score = s <;> simp [hx, List.filter_cons, ih]

/-- Claim C2: registries_for_port returns exactly the matching
registries (those whose maximum pattern score is nonzero, in
configuration order: registry_candidates) as a stable descending sort
by score mapped to implementations; registry_for_port is the first of
them, whose score is maximal, and falls back to the (possibly absent)
default registry when nothing matches. Stability is stated
extensionally: within each score class the configuration order is
preserved. -/
theorem registries_for_port_spec (regs : List Registry)
    (default_reg : Option Nat) (name : String) :
    registries_for_port regs name =
        (stable_sort_desc (registry_candidates regs name)).map
          RegistryCandidate.impl ∧
    (stable_sort_desc (registry_candidates regs name)).Perm
        (registry_candidates regs name) ∧
    (stable_sort_desc (registry_candidates regs name)).Pairwise
        (fun a b => b.score ≤ a.score) ∧
    (∀ s : Nat,
      (stable_sort_desc (registry_candidates regs name)).filter
          (fun c => c.score = s) =
        (registry_candidates regs name).filter (fun c => c.score = s)) ∧
    (registry_candidates regs name = [] →
      registry_for_port regs default_reg name = default_reg) ∧
    (registry_candidates regs name ≠ [] →
      ∃ c rest,
        stable_sort_desc (registry_candidates regs name) = c :: rest ∧
        registry_for_port regs default_reg name = some c.impl ∧
        ∀ d ∈ registry_candidates regs name, d.score ≤ c.score) := by
  refine ⟨?_, stable_sort_desc_perm _, stable_sort_desc_pairwise _,
      fun s => stable_sort_desc_filter_score s _, ?_, ?_⟩
  · unfold registries_for_port
    by_cases h : registry_candidates regs name = []
    · simp [h, stable_sort_desc]
    · simp [List.isEmpty_iff, h]
  · intro h
    unfold registry_for_port registries_for_port
    simp [h, stable_sort_desc]
  · intro h
    have hne : stable_sort_desc (registry_candidates regs name) ≠ [] := by
      intro hnil
      exact h ((stable_sort_desc_perm _).symm.trans (hnil ▸ List.Perm.refl [])).eq_nil
    rcases List.exists_cons_of_ne_nil hne with ⟨c, rest, hcons⟩
    refine ⟨c, rest, hcons, ?_, ?_⟩
    · have hne2 : (registry_candidates regs name).isEmpty = false := by
        simp [List.isEmpty_iff, h]
      unfold registry_for_port registries_for_port
      simp only [hne2, Bool.false_eq_true, if_false, hcons, List.map_cons]
    · intro d hd
      have hd2 : d ∈ c :: rest :=
        hcons ▸ (stable_sort_desc_perm _).symm.mem_iff.mp hd
      rcases List.mem_cons.mp hd2 with hd3 | hd3
      · subst hd3; exact le_refl _
      · have hp := stable_sort_desc_pairwise (registry_candidates regs name)
        rw [hcons, List.pairwise_cons] at hp
        exact hp.1 d hd3

/-- Witness for registries_for_port_spec: the spec's scenario S2 (exact
match beats the star pattern) with two registries, discharging both
conditional branches at concrete inputs. -/
theorem registries_for_port_spec_witness :
    registry_candidates [⟨["cu*"], 10⟩, ⟨["curl"], 20⟩] "curl" ≠ [] ∧
    registry_for_port [⟨["cu*"], 10⟩, ⟨["curl"], 20⟩] (some 7) "curl" = some 20 ∧
    registry_candidates [⟨["boost-*"], 10⟩] "zlib" = [] ∧
    registry_for_port [⟨["boost-*"], 10⟩] (some 7) "zlib" = some 7 := by
  have h1 : registry_candidates [⟨["cu*"], 10⟩, ⟨["curl"], 20⟩] "curl" ≠ [] := by
    decide
  have h2 : registry_candidates [⟨["boost-*"], 10⟩] "zlib" = [] := by decide
  refine ⟨h1, ?_, h2,
    (registries_for_port_spec [⟨["boost-*"], 10⟩] (some 7) "zlib").2.2.2.2.1 h2⟩
  rcases (registries_for_port_spec [⟨["cu*"], 10⟩, ⟨["curl"], 20⟩]
      (some 7) "curl").2.2.2.2.2 h1 with ⟨c, rest, hcons, hfirst, hmax⟩
  have hc : c = ⟨20, SIZE_MAX⟩ := by
    have hs : stable_sort_desc (registry_candidates
        [⟨["cu*"], 10⟩, ⟨["curl"], 20⟩] "curl") =
        [⟨20, SIZE_MAX⟩, ⟨10, 3⟩] := by decide
    rw [hs] at hcons
    exact (List.cons.injEq _ _ _ _ ▸ hcons).1.symm
  rw [hfirst, hc]

/-! ## Shared data model: versions, errors, JSON values, paths -/

/-- Embedding of vcpkg::Version: a version text plus a port-version
number; the core compares versions structurally (equality only). -/
structure Version where
  text : String
  port_version : Nat
deriving DecidableEq

/-- Embedding of VersionSpec: the primary (port name, version) query key. -/
structure VersionSpec where
  port_name : String
  version : Version
deriving DecidableEq

/-- Embedding of PathAndLocation: an on-disk directory holding a recipe
and its user-visible location string. -/
structure PathAndLocation where
  path : String
  location : String
deriving DecidableEq

/-- Stand-in for LocalizedString error values.  Constructors mirror the
distinct error messages the embedded functions produce; env-supplied
collaborator failures use the envError constructor. -/
inductive Err where
  | envError (msg : String)
  | filesystemCall (code : Nat) (path : String)
  | jsonParse (origin : String)
  | noTopLevelObj (path : String)
  | noVersionsArray (path : String)
  | versionsFileParse (path : String)
  | baselineParse (origin : String)
  | unexpectedPortName (expected actual : String) (path : String)
  | mismatchedNames (package_name actual : String)
deriving DecidableEq

/-- JSON values as produced by the (external) Json::parse; object
fields keep source order. -/
inductive JValue where
  | null
  | boolean (b : Bool)
  | number (n : Int)
  | str (s : String)
  | arr (elems : List JValue)
  | obj (fields : List (String × JValue))

/-- Json::Object::get: the value of the first field with this key. -/
def json_obj_get (fields : List (String × JValue)) (key : String) :
    Option JValue :=
  match fields with
  | [] => none
  | (k, v) :: rest => if k = key then some v else json_obj_get rest key

/-- Path concatenation a / b for a relative right-hand side: a
separator is inserted between the two parts (models vcpkg's
Path::operator/ in the relative case, which is the only case the
embedded code reaches). -/
def path_concat (lhs rhs : String) : String := lhs ++ "/" ++ rhs

/-! ## LockFile (claim C9) -/

/-- Embedding of LockFile::EntryData: the reference, the resolved
commit, and the staleness flag. -/
structure EntryData where
  reference : String
  commit_id : String
  stale : Bool
deriving DecidableEq

/-- Embedding of the LockFile: the (repo -> entry) multimap flattened
to an association list in insertion order, plus the modified flag. -/
structure LockFileData where
  lockdata : List (String × EntryData)
  modified : Bool
deriving DecidableEq

/-- The lookup in LockFile::get_or_fetch: the index of the first entry
whose repo and reference both match (equal_range on the repo plus
find_if on the reference). -/
def lockdata_find_index (l : List (String × EntryData))
    (repo reference : String) : Option Nat :=
  l.findIdx? fun p => p.1 = repo ∧ p.2.reference = reference

/-- Embedding of LockFile::get_or_fetch.  The backend fetch
git_fetch_from_remote_registry is passed in as its result.  Returns
the entry (as an index into lockdata) and the updated lock file;
a fresh entry is inserted with stale = false and modified is set only
when the fetch succeeds. -/
def get_or_fetch (fetchResult : Except Err String) (lf : LockFileData)
    (repo reference : String) : Except Err Nat × LockFileData :=
  match lockdata_find_index lf.lockdata repo reference with
  | some i => (.ok i, lf)
  | none =>
    match fetchResult with
    | .ok commit =>
      (.ok lf.lockdata.length,
       { lockdata := lf.lockdata ++ [(repo, ⟨reference, commit, false⟩)],
         modified := true })
    | .error e => (.error e, lf)

/-- Embedding of LockFile::Entry::ensure_up_to_date for the entry at
index i: when the entry is stale, re-fetch; on success overwrite the
commit, clear stale and set modified; on failure propagate the error. -/
def ensure_up_to_date (fetchResult : Except Err String) (lf : LockFileData)
    (i : Nat) : Except Err Unit × LockFileData :=
  match lf.lockdata[i]? with
  | none => (.ok (), lf)
  | some (repo, e) =>
    if e.stale then
      match fetchResult with
      | .ok commit =>
        (.ok (),
         { lockdata := lf.lockdata.set i
             (repo, { e with commit_id := commit, stale := false }),
           modified := true })
      | .error err => (.error err, lf)
    else (.ok (), lf)

/-- Claim C9: LockFile operations are atomic on error.  If the backend
fetch fails, get_or_fetch (invoked for a missing (repo, reference))
returns that error with the lock data completely unchanged, so no
entry is inserted and modified is not set; and ensure_up_to_date on a
stale entry whose re-fetch fails returns the error with the lock file
unchanged, so the entry's commit_id, its stale flag and the modified
flag are all preserved. -/
theorem lockfile_atomic_on_error (fetchErr : Err) (lf : LockFileData)
    (repo reference : String) (i : Nat) :
    (lockdata_find_index lf.lockdata repo reference = none →
      get_or_fetch (.error fetchErr) lf repo reference =
        (.error fetchErr, lf)) ∧
    (∀ repo2 e, lf.lockdata[i]? = some (repo2, e) → e.stale = true →
      ensure_up_to_date (.error fetchErr) lf i = (.error fetchErr, lf)) := by
  constructor
  · intro h
    unfold get_or_fetch
    rw [h]
  · intro repo2 e hget hstale
    unfold ensure_up_to_date
    rw [hget]
    simp [hstale]

/-- Witness for lockfile_atomic_on_error: a concrete one-entry lock
file with a stale entry and a failed fetch. -/
theorem lockfile_atomic_on_error_witness :
    get_or_fetch (.error (.envError "down"))
        ⟨[("r", ⟨"main", "c0", true⟩)], false⟩ "s" "main" =
      (.error (.envError "down"), ⟨[("r", ⟨"main", "c0", true⟩)], false⟩) ∧
    ensure_up_to_date (.error (.envError "down"))
        ⟨[("r", ⟨"main", "c0", true⟩)], false⟩ 0 =
      (.error (.envError "down"), ⟨[("r", ⟨"main", "c0", true⟩)], false⟩) :=
  ⟨(lockfile_atomic_on_error (.envError "down")
      ⟨[("r", ⟨"main", "c0", true⟩)], false⟩ "s" "main" 0).1 (by decide),
   (lockfile_atomic_on_error (.envError "down")
      ⟨[("r", ⟨"main", "c0", true⟩)], false⟩ "s" "main" 0).2
      "r" ⟨"main", "c0", true⟩ (by decide) (by decide)⟩

/-! ## BuiltinFilesRegistry::get_port (claim C5) -/

/-- The name/version core of a parsed SourceControlFile (the recipe
fields BuiltinFilesRegistry::get_port inspects). -/
structure Recipe where
  name : String
  version : Version
deriving DecidableEq

/-- Environment of BuiltinFilesRegistry: the builtin ports directory
and the (external, cached) recipe loader get_scf/try_load_port, whose
arguments are the port name and the directory; ok none models a
directory that holds no port. -/
structure BuiltinFilesEnv where
  builtin_ports_directory : String
  scf_at : String → String → Except Err (Option Recipe)

/-- Embedding of BuiltinFilesRegistry::get_port.  The Bool records
whether the version-mismatch warning was printed. -/
def builtin_files_get_port (env : BuiltinFilesEnv) (spec : VersionSpec) :
    Except Err (Option PathAndLocation) × Bool :=
  let port_directory :=
    path_concat env.builtin_ports_directory spec.port_name
  match env.scf_at spec.port_name port_directory with
  | .error e => (.error e, false)
  | .ok none => (.ok none, false)
  | .ok (some scf) =>
    if scf.name ≠ spec.port_name then
      (.error (.unexpectedPortName scf.name spec.port_name port_directory),
       false)
    else if scf.version ≠ spec.version then
      (.ok none, true)
    else
      (.ok (some ⟨port_directory,
              "git+https://github.com/Microsoft/vcpkg#ports/"
                ++ spec.port_name⟩),
       false)

/-- Claim C5: when the recipe loaded from builtin-ports/name carries a
different name, get_port errors with unexpected port name; when only
the version differs from the request, get_port returns Ok(None) with a
warning rather than an error; and when name and version both match it
returns the port directory with the exact location string
git+https colon-slash-slash github.com/Microsoft/vcpkg#ports/name. -/
theorem builtin_files_get_port_spec (env : BuiltinFilesEnv)
    (spec : VersionSpec) (scf : Recipe)
    (hload : env.scf_at spec.port_name
        (path_concat env.builtin_ports_directory spec.port_name) =
      .ok (some scf)) :
    (scf.name ≠ spec.port_name →
      builtin_files_get_port env spec =
        (.error (.unexpectedPortName scf.name spec.port_name
            (path_concat env.builtin_ports_directory spec.port_name)),
         false)) ∧
    (scf.name = spec.port_name → scf.version ≠ spec.version →
      builtin_files_get_port env spec = (.ok none, true) ∧
      ∀ e, (builtin_files_get_port env spec).1 ≠ .error e) ∧
    (scf.name = spec.port_name → scf.version = spec.version →
      builtin_files_get_port env spec =
        (.ok (some ⟨path_concat env.builtin_ports_directory spec.port_name,
            "git+https://github.com/Microsoft/vcpkg#ports/"
              ++ spec.port_name⟩),
         false)) := by
  refine ⟨?_, ?_, ?_⟩
  · intro hname
    unfold builtin_files_get_port
    simp only [hload]
    simp [hname]
  · intro hname hver
    have h : builtin_files_get_port env spec = (.ok none, true) := by
      unfold builtin_files_get_port
      simp only [hload]
      simp [hname, hver]
    exact ⟨h, by rw [h]; intro e hcon; exact Except.noConfusion hcon⟩
  · intro hname hver
    unfold builtin_files_get_port
    simp only [hload]
    simp [hname, hver]

/-- Witness for builtin_files_get_port_spec: the spec's scenario S1
(zlib at version 1.3, queried at 1.3 and at 1.2) plus a mis-named
recipe, with a concrete loader. -/
theorem builtin_files_get_port_spec_witness :
    builtin_files_get_port
        ⟨"root/ports", fun _ _ => .ok (some ⟨"zlib", ⟨"1.3", 0⟩⟩)⟩
        ⟨"zlib", ⟨"1.3", 0⟩⟩ =
      (.ok (some ⟨"root/ports/zlib",
          "git+https://github.com/Microsoft/vcpkg#ports/zlib"⟩), false) ∧
    builtin_files_get_port
        ⟨"root/ports", fun _ _ => .ok (some ⟨"zlib", ⟨"1.3", 0⟩⟩)⟩
        ⟨"zlib", ⟨"1.2", 0⟩⟩ = (.ok none, true) ∧
    builtin_files_get_port
        ⟨"root/ports", fun _ _ => .ok (some ⟨"zlib", ⟨"1.3", 0⟩⟩)⟩
        ⟨"libz", ⟨"1.3", 0⟩⟩ =
      (.error (.unexpectedPortName "zlib" "libz" "root/ports/libz"),
       false) := by
  refine ⟨?_, ?_, ?_⟩
  · have h := (builtin_files_get_port_spec
        ⟨"root/ports", fun _ _ => .ok (some ⟨"zlib", ⟨"1.3", 0⟩⟩)⟩
        ⟨"zlib", ⟨"1.3", 0⟩⟩ ⟨"zlib", ⟨"1.3", 0⟩⟩ rfl).2.2
    exact h rfl rfl
  · have h := (builtin_files_get_port_spec
        ⟨"root/ports", fun _ _ => .ok (some ⟨"zlib", ⟨"1.3", 0⟩⟩)⟩
        ⟨"zlib", ⟨"1.2", 0⟩⟩ ⟨"zlib", ⟨"1.3", 0⟩⟩ rfl).2.1
    exact (h rfl (by decide)).1
  · have h := (builtin_files_get_port_spec
        ⟨"root/ports", fun _ _ => .ok (some ⟨"zlib", ⟨"1.3", 0⟩⟩)⟩
        ⟨"libz", ⟨"1.3", 0⟩⟩ ⟨"zlib", ⟨"1.3", 0⟩⟩ rfl).1
    exact h (by decide)

/-! ## Baseline parsing (claim C8) -/

/-- The body of BaselineDeserializer::visit_object: every field of the
baseline object is visited with the (external) version-tag
deserializer; any per-field failure makes the whole visit fail (the
C++ Json::Reader accumulates errors and the caller rejects the result
when any were recorded). -/
def baseline_visit_object (visit_tag : JValue → Option Version) :
    List (String × JValue) → Option (List (String × Version))
  | [] => some []
  | (k, v) :: rest =>
    match visit_tag v, baseline_visit_object visit_tag rest with
    | some ver, some m => some ((k, ver) :: m)
    | _, _ => none

/-- Environment of parse_baseline_versions: the external JSON parser
(none models a parse error) and the external version-tag
deserializer used for each baseline entry. -/
structure BaselineEnv where
  parse_json : String → Option JValue
  visit_tag : JValue → Option Version

/-- Embedding of parse_baseline_versions: parse the contents, require a
top-level object, select the baseline key (an empty key means
"default"), return Ok(None) when the key is absent, and otherwise
deserialize the baseline object. -/
def parse_baseline_versions (env : BaselineEnv) (contents baseline origin :
    String) : Except Err (Option (List (String × Version))) :=
  match env.parse_json contents with
  | none => .error (.jsonParse origin)
  | some v =>
    match v with
    | .obj fields =>
      let real_baseline := if baseline = "" then "default" else baseline
      match json_obj_get fields real_baseline with
      | none => .ok none
      | some (JValue.obj bfields) =>
        match baseline_visit_object env.visit_tag bfields with
        | some m => .ok (some m)
        | none => .error (.baselineParse origin)
      | some _ => .error (.baselineParse origin)
    | _ => .error (.noTopLevelObj origin)

/-- Claim C8: parse_baseline_versions with the empty baseline key
behaves exactly like the key "default"; and whenever the contents
parse to a top-level object lacking the requested key, the result is
Ok(None) — no baseline found — which is not an error. -/
theorem parse_baseline_versions_spec (env : BaselineEnv)
    (contents origin baseline : String) :
    parse_baseline_versions env contents "" origin =
        parse_baseline_versions env contents "default" origin ∧
    (∀ fields, env.parse_json contents = some (.obj fields) →
      json_obj_get fields (if baseline = "" then "default" else baseline) =
          none →
      parse_baseline_versions env contents baseline origin = .ok none ∧
      ∀ e, parse_baseline_versions env contents baseline origin ≠
        .error e) := by
  constructor
  · unfold parse_baseline_versions
    rfl
  · intro fields hparse hget
    have h : parse_baseline_versions env contents baseline origin =
        .ok none := by
      unfold parse_baseline_versions
      rw [hparse]
      simp only []
      rw [hget]
    exact ⟨h, by rw [h]; intro e hcon; exact Except.noConfusion hcon⟩

/-- Witness for parse_baseline_versions_spec: concrete contents whose
top-level object has only an "x64" key, queried for the (empty,
meaning default) baseline. -/
theorem parse_baseline_versions_spec_witness :
    parse_baseline_versions
        ⟨fun _ => some (.obj [("x64", .obj [])]), fun _ => none⟩
        "contents" "" "origin" = .ok none :=
  ((parse_baseline_versions_spec
      ⟨fun _ => some (.obj [("x64", .obj [])]), fun _ => none⟩
      "contents" "origin" "").2 [("x64", .obj [])] rfl (by rfl)).1

/-! ## Per-port version database files (claims C7 and C10) -/

/-- The version scheme tag transported by the core. -/
inductive VersionScheme where
  | relaxed
  | semver
  | date
  | string
deriving DecidableEq

/-- Embedding of VersionDbEntry: scheme and version plus the locator —
the git tree for git registries, the resolved path for filesystem
registries (the unused field is left empty by the deserializer). -/
structure VersionDbEntry where
  scheme : VersionScheme
  version : Version
  git_tree : String
  p : String
deriving DecidableEq

/-- Which flavour of version database is being read. -/
inductive VersionDbType where
  | git
  | filesystem
deriving DecidableEq

/-- Filesystem errors surfaced by ReadOnlyFilesystem::read_contents:
either file-not-found or any other error code. -/
inductive FsError where
  | noSuchFile
  | other (code : Nat)
deriving DecidableEq

/-- The abort sites of load_versions_file: Checks::unreachable for a
filesystem DB with an empty registry root, and the out-of-bounds
first-character indexing of relative_path_to_versions on an empty
port name. -/
inductive LoadAbort where
  | emptyName
  | filesystemNoRoot
deriving DecidableEq

/-- Embedding of relative_path_to_versions: builds
first-letter dash slash port-name dot-json by indexing character 0 of
the port name with no emptiness check; none models the out-of-bounds
access on an empty name. -/
def relative_path_to_versions (port_name : String) : Option String :=
  match port_name.data with
  | [] => none
  | c :: _ =>
    some (path_concat (String.mk [c, '-']) (port_name ++ ".json"))

/-- Environment of load_versions_file: the filesystem read, the
external JSON parser (none is a parse error), and the element-wise
version-db deserialization performed through Json::Reader (none models
recorded reader errors; it receives the db type and registry root the
C++ passes to VersionDbEntryArrayDeserializer). -/
structure VersionsFileEnv where
  read_contents : String → Except FsError String
  parse_json : String → Option JValue
  deser_versions :
    VersionDbType → String → List JValue → Option (List VersionDbEntry)

/-- The body of load_versions_file past its two abort checks: read the
file (file-not-found yields Ok(None)), parse the JSON, require a
top-level object with a "versions" array, and deserialize its
elements. -/
def load_versions_file_body (env : VersionsFileEnv) (type : VersionDbType)
    (registry_root versions_file_path : String) :
    Except Err (Option (List VersionDbEntry)) :=
  match env.read_contents versions_file_path with
  | .error .noSuchFile => .ok none
  | .error (.other code) => .error (.filesystemCall code versions_file_path)
  | .ok contents =>
    match env.parse_json contents with
    | none => .error (.jsonParse versions_file_path)
    | some (JValue.obj fields) =>
      match json_obj_get fields "versions" with
      | some (JValue.arr elems) =>
        match env.deser_versions type registry_root elems with
        | some entries => .ok (some entries)
        | none => .error (.versionsFileParse versions_file_path)
      | some _ => .error (.noVersionsArray versions_file_path)
      | none => .error (.noVersionsArray versions_file_path)
    | some _ => .error (.noTopLevelObj versions_file_path)

/-- Embedding of load_versions_file.  The outer Except is the abort
channel (Checks::unreachable on a filesystem DB without a root, and
the out-of-bounds indexing of an empty port name); once past those,
every path produces an ordinary ExpectedL result, in which Ok(None)
means the port has no versions file. -/
def load_versions_file (env : VersionsFileEnv) (type : VersionDbType)
    (registry_versions port_name registry_root : String) :
    Except LoadAbort (Except Err (Option (List VersionDbEntry))) :=
  if type = VersionDbType.filesystem ∧ registry_root = "" then
    .error .filesystemNoRoot
  else
    match relative_path_to_versions port_name with
    | none => .error .emptyName
    | some rel =>
      .ok (load_versions_file_body env type registry_root
        (path_concat registry_versions rel))

/-- Claim C7: for a port whose versions file does not exist the result
is Ok(None) — a missing file is not an error — while an existing file
that is not valid JSON, has no top-level object, or lacks a "versions"
array is an error, and so is any read failure other than
file-not-found. -/
theorem load_versions_file_spec (env : VersionsFileEnv)
    (type : VersionDbType) (registry_versions port_name registry_root rel :
    String)
    (habort : ¬ (type = VersionDbType.filesystem ∧ registry_root = ""))
    (hrel : relative_path_to_versions port_name = some rel) :
    load_versions_file env type registry_versions port_name registry_root =
      .ok (load_versions_file_body env type registry_root
        (path_concat registry_versions rel)) ∧
    (env.read_contents (path_concat registry_versions rel) =
        .error .noSuchFile →
      load_versions_file env type registry_versions port_name registry_root =
        .ok (.ok none)) ∧
    (∀ code, env.read_contents (path_concat registry_versions rel) =
        .error (.other code) →
      load_versions_file env type registry_versions port_name registry_root =
        .ok (.error (.filesystemCall code
          (path_concat registry_versions rel)))) ∧
    (∀ contents,
      env.read_contents (path_concat registry_versions rel) = .ok contents →
      (env.parse_json contents = none →
        load_versions_file env type registry_versions port_name
            registry_root =
          .ok (.error (.jsonParse (path_concat registry_versions rel)))) ∧
      (∀ v, env.parse_json contents = some v →
        (∀ fields, v ≠ JValue.obj fields) →
        load_versions_file env type registry_versions port_name
            registry_root =
          .ok (.error (.noTopLevelObj
            (path_concat registry_versions rel)))) ∧
      (∀ fields, env.parse_json contents = some (JValue.obj fields) →
        (∀ elems, json_obj_get fields "versions" ≠
            some (JValue.arr elems)) →
        load_versions_file env type registry_versions port_name
            registry_root =
          .ok (.error (.noVersionsArray
            (path_concat registry_versions rel))))) := by
  have hload : load_versions_file env type registry_versions port_name
      registry_root =
      .ok (load_versions_file_body env type registry_root
        (path_concat registry_versions rel)) := by
    unfold load_versions_file
    rw [if_neg habort, hrel]
  refine ⟨hload, ?_, ?_, ?_⟩
  · intro h
    rw [hload]
    unfold load_versions_file_body
    rw [h]
  · intro code h
    rw [hload]
    unfold load_versions_file_body
    rw [h]
  · intro contents h
    refine ⟨?_, ?_, ?_⟩
    · intro hp
      rw [hload]
      unfold load_versions_file_body
      rw [h]
      simp only [hp]
    · intro v hv hnotobj
      rw [hload]
      unfold load_versions_file_body
      rw [h]
      cases v with
      | obj fs => exact absurd rfl (hnotobj fs)
      | null => simp only [hv]
      | boolean b => simp only [hv]
      | number n => simp only [hv]
      | str s => simp only [hv]
      | arr es => simp only [hv]
    · intro fields hv hnoarr
      rw [hload]
      unfold load_versions_file_body
      rw [h]
      cases hg : json_obj_get fields "versions" with
      | none => simp only [hv, hg]
      | some w =>
        cases w with
        | arr es => exact absurd hg (hnoarr es)
        | null => simp only [hv, hg]
        | boolean b => simp only [hv, hg]
        | number n => simp only [hv, hg]
        | str s => simp only [hv, hg]
        | obj fs => simp only [hv, hg]

/-- Witness for load_versions_file_spec: a git-type database whose
versions file is missing yields Ok(None), and one whose file holds a
top-level array (no top-level object) yields an error. -/
theorem load_versions_file_spec_witness :
    load_versions_file
        ⟨fun _ => .error .noSuchFile, fun _ => none, fun _ _ _ => none⟩
        VersionDbType.git "vdb" "zlib" "" = .ok (.ok none) ∧
    load_versions_file
        ⟨fun _ => .ok "[]", fun _ => some (.arr []), fun _ _ _ => none⟩
        VersionDbType.git "vdb" "zlib" "" =
      .ok (.error (.noTopLevelObj "vdb/z-/zlib.json")) :=
  ⟨(load_versions_file_spec
      ⟨fun _ => .error .noSuchFile, fun _ => none, fun _ _ _ => none⟩
      VersionDbType.git "vdb" "zlib" "" "z-/zlib.json"
      (by decide) rfl).2.1 rfl,
   ((load_versions_file_spec
      ⟨fun _ => .ok "[]", fun _ => some (.arr []), fun _ _ _ => none⟩
      VersionDbType.git "vdb" "zlib" "" "z-/zlib.json"
      (by decide) rfl).2.2.2 "[]" rfl).2.1 (.arr []) rfl
      (fun fields h => JValue.noConfusion h)⟩

/-- Claim C10: relative_path_to_versions computes
first-letter dash slash name dot-json by indexing the first character
with no emptiness check — the indexing aborts exactly on the empty
name — so a non-empty port name is a precondition of
load_versions_file, under which its empty-name abort branch is
unreachable. -/
theorem relative_path_to_versions_spec :
    (∀ (port_name : String) (c : Char) (cs : List Char),
      port_name.data = c :: cs →
      relative_path_to_versions port_name =
        some (path_concat (String.mk [c, '-']) (port_name ++ ".json"))) ∧
    relative_path_to_versions "" = none ∧
    (∀ (env : VersionsFileEnv) (type : VersionDbType)
        (registry_versions port_name registry_root : String),
      port_name ≠ "" →
      load_versions_file env type registry_versions port_name registry_root ≠
        .error .emptyName) := by
  refine ⟨?_, rfl, ?_⟩
  · intro port_name c cs h
    unfold relative_path_to_versions
    rw [h]
  · intro env type registry_versions port_name registry_root hname
    have hdata : port_name.data ≠ [] := by
      intro h
      exact hname (by cases port_name with
        | mk data => simp only at h; rw [h])
    rcases List.exists_cons_of_ne_nil hdata with ⟨c, cs, hcons⟩
    have hrel : relative_path_to_versions port_name =
        some (path_concat (String.mk [c, '-']) (port_name ++ ".json")) := by
      unfold relative_path_to_versions
      rw [hcons]
    unfold load_versions_file
    by_cases habort : type = VersionDbType.filesystem ∧ registry_root = ""
    · rw [if_pos habort]
      intro hcon
      exact LoadAbort.noConfusion (Except.error.inj hcon)
    · rw [if_neg habort, hrel]
      intro hcon
      exact Except.noConfusion hcon

/-- Witness for relative_path_to_versions_spec: the formula at "zlib"
and non-abortion at a concrete environment. -/
theorem relative_path_to_versions_spec_witness :
    relative_path_to_versions "zlib" = some "z-/zlib.json" ∧
    load_versions_file
        ⟨fun _ => .error .noSuchFile, fun _ => none, fun _ _ _ => none⟩
        VersionDbType.git "vdb" "zlib" "" ≠ .error .emptyName :=
  ⟨relative_path_to_versions_spec.1 "zlib" 'z' ['l', 'i', 'b'] rfl,
   relative_path_to_versions_spec.2.2
      ⟨fun _ => .error .noSuchFile, fun _ => none, fun _ _ _ => none⟩
      VersionDbType.git "vdb" "zlib" "" (by decide)⟩

/-! ## GitRegistry::get_port (claim C3) -/

/-- Embedding of PortVersionsGitTreesStructOfArrays: parallel vectors
mapping port versions to git trees. -/
structure VersionDb where
  port_versions : List Version
  git_trees : List String
deriving DecidableEq

/-- The linear scan of try_get_git_tree: find the first version equal
to the query and return the git tree stored at the same index. -/
def try_get_git_tree : List Version → List String → Version → Option String
  | v :: vs, t :: ts, q => if v = q then some t else try_get_git_tree vs ts q
  | _, _, _ => none

/-- PortVersionsGitTreesStructOfArrays::try_get_git_tree on the record. -/
def VersionDb.try_get (db : VersionDb) (v : Version) : Option String :=
  try_get_git_tree db.port_versions db.git_trees v

/-- Environment of a GitRegistry: the repo url, the resolved lock entry
(get_lock_entry), the backend fetch used by ensure_up_to_date, the
versions-tree extraction keyed by commit
(git_find_object_id_for_remote_registry_path plus
git_extract_tree_from_remote_registry, as in
get_versions_tree_from_entry), the per-port version DB load keyed by
the extracted tree path (load_versions_file through get_versions), and
the git-tree checkout used by load_git_tree. -/
structure GitEnv where
  repo : String
  lockEntry : Except Err EntryData
  fetchResult : Except Err String
  versionsTreeAt : String → Except Err String
  dbAt : String → String → Except Err (Option VersionDb)
  extractTree : String → Except Err String

/-- Embedding of GitRegistry::load_git_tree: extract the tree and pair
the resulting path with the location string git+ repo at-sign tree. -/
def git_load_git_tree (env : GitEnv) (git_tree : String) :
    Except Err (Option PathAndLocation) :=
  match env.extractTree git_tree with
  | .ok p => .ok (some ⟨p, "git+" ++ env.repo ++ "@" ++ git_tree⟩)
  | .error e => .error e

/-- Embedding of LockFile::Entry::ensure_up_to_date as seen from the
registry: a stale entry is re-fetched (on success the commit is
overwritten and stale cleared), a fresh entry is returned unchanged. -/
def git_ensure_entry (env : GitEnv) (e : EntryData) : Except Err EntryData :=
  if e.stale then
    match env.fetchResult with
    | .ok commit => .ok { e with commit_id := commit, stale := false }
    | .error err => .error err
  else .ok e

/-- Embedding of GitRegistry::get_stale_versions: the version DB
computed from the versions tree at the (stale) lock commit. -/
def git_get_stale_versions (env : GitEnv) (e : EntryData)
    (port_name : String) : Except Err (Option VersionDb) :=
  match env.versionsTreeAt e.commit_id with
  | .error err => .error err
  | .ok treePath => env.dbAt treePath port_name

/-- The stale-path short circuit at the top of GitRegistry::get_port: a
git tree is produced only when the entry is stale, the stale DB loads
to an actual DB, and that DB holds this exact version; every other
outcome (including a stale-DB error) falls through. -/
def git_stale_hit (env : GitEnv) (e : EntryData) (spec : VersionSpec) :
    Option String :=
  if e.stale then
    match git_get_stale_versions env e spec.port_name with
    | .ok (some db) => db.try_get spec.version
    | _ => none
  else none

/-- The live half of GitRegistry::get_port (get_live_versions after
ensure_up_to_date succeeded with entry e2): load the DB at the live
commit and look the version up; a missing DB or version yields
Ok(None). -/
def git_live_lookup (env : GitEnv) (e2 : EntryData) (spec : VersionSpec) :
    Except Err (Option PathAndLocation) :=
  match env.versionsTreeAt e2.commit_id with
  | .error err => .error err
  | .ok treePath =>
    match env.dbAt treePath spec.port_name with
    | .error err => .error err
    | .ok none => .ok none
    | .ok (some db) =>
      match db.try_get spec.version with
      | some tree => git_load_git_tree env tree
      | none => .ok none

/-- Embedding of GitRegistry::get_port.  The second component is the
lock entry after the call (the observable state): it is refreshed by
ensure_up_to_date only on the live path. -/
def git_get_port (env : GitEnv) (spec : VersionSpec) :
    Except Err (Option PathAndLocation) × Except Err EntryData :=
  match env.lockEntry with
  | .error e => (.error e, .error e)
  | .ok entry =>
    match git_stale_hit env entry spec with
    | some tree => (git_load_git_tree env tree, .ok entry)
    | none =>
      match git_ensure_entry env entry with
      | .error e => (.error e, .ok entry)
      | .ok entry2 => (git_live_lookup env entry2 spec, .ok entry2)

/-- Claim C3: with a stale lock entry, get_port consults the version DB
computed at the stale commit first; a stale-DB hit for exactly the
requested (name, version) is answered by checking out that git tree
with the lock entry untouched (still stale — no refresh); only when
the stale DB has no entry for this (name, version) is
ensure_up_to_date forced, after which the lookup is retried against
the version DB at the refreshed commit (a failed refresh propagates
its error and also leaves the entry unchanged). -/
theorem git_get_port_stale_first (env : GitEnv) (entry : EntryData)
    (spec : VersionSpec) (hentry : env.lockEntry = .ok entry)
    (hstale : entry.stale = true) :
    (∀ db tree,
      git_get_stale_versions env entry spec.port_name = .ok (some db) →
      db.try_get spec.version = some tree →
      git_get_port env spec = (git_load_git_tree env tree, .ok entry)) ∧
    (git_stale_hit env entry spec = none →
      (∀ err, env.fetchResult = .error err →
        git_get_port env spec = (.error err, .ok entry)) ∧
      (∀ commit, env.fetchResult = .ok commit →
        git_get_port env spec =
          (git_live_lookup env
             { entry with commit_id := commit, stale := false } spec,
           .ok { entry with commit_id := commit, stale := false }))) := by
  constructor
  · intro db tree hdb htree
    have hhit : git_stale_hit env entry spec = some tree := by
      unfold git_stale_hit
      rw [if_pos hstale]
      simp only [hdb, htree]
    unfold git_get_port
    rw [hentry]
    simp only [hhit]
  · intro hmiss
    constructor
    · intro err herr
      have hens : git_ensure_entry env entry = .error err := by
        unfold git_ensure_entry
        rw [if_pos hstale, herr]
      unfold git_get_port
      rw [hentry]
      simp only [hmiss, hens]
    · intro commit hcommit
      have hens : git_ensure_entry env entry =
          .ok { entry with commit_id := commit, stale := false } := by
        unfold git_ensure_entry
        rw [if_pos hstale, hcommit]
      unfold git_get_port
      rw [hentry]
      simp only [hmiss, hens]

/-- Witness for git_get_port_stale_first: a concrete registry whose
stale DB holds zlib 1.3 at tree t1 — answered from the stale commit
with the entry left stale — and a concrete miss that forces the
refresh to commit c2 and retries against the live DB. -/
theorem git_get_port_stale_first_witness :
    git_get_port
        ⟨"https://r", .ok ⟨"main", "c1", true⟩, .ok "c2",
         fun c => .ok ("tree-" ++ c),
         fun p _ => if p = "tree-c1"
           then .ok (some ⟨[⟨"1.3", 0⟩], ["t1"]⟩) else .ok none,
         fun t => .ok ("co/" ++ t)⟩
        ⟨"zlib", ⟨"1.3", 0⟩⟩ =
      (.ok (some ⟨"co/t1", "git+https://r@t1"⟩),
       .ok ⟨"main", "c1", true⟩) ∧
    git_get_port
        ⟨"https://r", .ok ⟨"main", "c1", true⟩, .ok "c2",
         fun c => .ok ("tree-" ++ c),
         fun p _ => if p = "tree-c2"
           then .ok (some ⟨[⟨"1.3", 0⟩], ["t2"]⟩) else .ok none,
         fun t => .ok ("co/" ++ t)⟩
        ⟨"zlib", ⟨"1.3", 0⟩⟩ =
      (.ok (some ⟨"co/t2", "git+https://r@t2"⟩),
       .ok ⟨"main", "c2", false⟩) := by
  constructor
  · have h := (git_get_port_stale_first
        ⟨"https://r", .ok ⟨"main", "c1", true⟩, .ok "c2",
         fun c => .ok ("tree-" ++ c),
         fun p _ => if p = "tree-c1"
           then .ok (some ⟨[⟨"1.3", 0⟩], ["t1"]⟩) else .ok none,
         fun t => .ok ("co/" ++ t)⟩
        ⟨"main", "c1", true⟩ ⟨"zlib", ⟨"1.3", 0⟩⟩ rfl rfl).1
        ⟨[⟨"1.3", 0⟩], ["t1"]⟩ "t1" rfl rfl
    rw [h]
    rfl
  · have h := ((git_get_port_stale_first
        ⟨"https://r", .ok ⟨"main", "c1", true⟩, .ok "c2",
         fun c => .ok ("tree-" ++ c),
         fun p _ => if p = "tree-c2"
           then .ok (some ⟨[⟨"1.3", 0⟩], ["t2"]⟩) else .ok none,
         fun t => .ok ("co/" ++ t)⟩
        ⟨"main", "c1", true⟩ ⟨"zlib", ⟨"1.3", 0⟩⟩ rfl rfl).2
        rfl).2 "c2" rfl
    rw [h]
    rfl

/-! ## Overlay and manifest providers (claim C4) -/

/-- The observable core of a SourceControlFileAndLocation with a
non-null recipe: the recipe's name and the control path it was loaded
from (the provenance that distinguishes a manifest from an overlay
port of the same name). -/
structure SCFL where
  name : String
  control_path : String
deriving DecidableEq

/-- Environment of the overlay provider: Paragraphs::try_load_port at a
directory (ok none models a directory that is not a port) and
Paragraphs::try_load_overlay_ports enumerating every port beneath a
directory of ports (error models a nonempty results.errors). -/
structure OverlayEnv where
  tryLoadPort : String → Except Err (Option SCFL)
  loadOverlayPorts : String → Except Err (List SCFL)

/-- Embedding of OverlayProviderImpl::load_port (the body of
get_control_file on a cache miss): walk the overlay directories in
order; a directory that is itself a port with the requested name
answers, with another name is skipped; otherwise directory/name must,
if it is a port, carry the requested name or the mismatched-names
error is returned; Ok(none) is the null-recipe sentinel. -/
def overlay_load_port (env : OverlayEnv) (port_name : String) :
    List String → Except Err (Option SCFL)
  | [] => .ok none
  | dir :: rest =>
    match env.tryLoadPort dir with
    | .error e => .error e
    | .ok (some scfl) =>
      if scfl.name = port_name then .ok (some scfl)
      else overlay_load_port env port_name rest
    | .ok none =>
      match env.tryLoadPort (path_concat dir port_name) with
      | .error e => .error e
      | .ok (some scfl) =>
        if scfl.name = port_name then .ok (some scfl)
        else .error (.mismatchedNames port_name scfl.name)
      | .ok none => overlay_load_port env port_name rest

/-- std::map::emplace on the (name -> file) output map: insert only
when the key is absent; an existing entry is never overwritten. -/
def map_emplace (m : List (String × SCFL)) (k : String) (v : SCFL) :
    List (String × SCFL) :=
  match m.lookup k with
  | some _ => m
  | none => (k, v) :: m

/-- Embedding of OverlayProviderImpl::load_all_control_files: the
overlay directories are walked in reverse order, each contributing
either itself (if it is a port) or all ports beneath it, every name
added with map::emplace; a load error aborts the process
(Checks::exit_maybe_upgrade), modelled as none. -/
def overlay_load_all_from (env : OverlayEnv) :
    List String → List (String × SCFL) → Option (List (String × SCFL))
  | [], out => some out
  | dir :: rest, out =>
    match env.tryLoadPort dir with
    | .error _ => none
    | .ok (some scfl) =>
      overlay_load_all_from env rest (map_emplace out scfl.name scfl)
    | .ok none =>
      match env.loadOverlayPorts dir with
      | .error _ => none
      | .ok scfls =>
        overlay_load_all_from env rest
          (scfls.foldl (fun m s => map_emplace m s.name s) out)

/-- OverlayProviderImpl::load_all_control_files proper: the reverse
iteration over the configured overlay directories. -/
def overlay_load_all (env : OverlayEnv) (dirs : List String)
    (out : List (String × SCFL)) : Option (List (String × SCFL)) :=
  overlay_load_all_from env dirs.reverse out

/-- Embedding of ManifestProviderImpl::get_control_file: the manifest's
own name answers with the pre-loaded manifest recipe before the
overlay directories are consulted. -/
def manifest_get_control_file (manifest : SCFL) (env : OverlayEnv)
    (dirs : List String) (port_name : String) : Except Err (Option SCFL) :=
  if port_name = manifest.name then .ok (some manifest)
  else overlay_load_port env port_name dirs

/-- Embedding of ManifestProviderImpl::load_all_control_files: the
overlay map is built first and the manifest added afterwards with
map::emplace. -/
def manifest_load_all (manifest : SCFL) (env : OverlayEnv)
    (dirs : List String) (out : List (String × SCFL)) :
    Option (List (String × SCFL)) :=
  match overlay_load_all env dirs out with
  | none => none
  | some m => some (map_emplace m manifest.name manifest)

/-- Counterexample to claim C4: one overlay directory that is itself a
port named "m" (the manifest's name).  get_control_file("m") returns
the manifest, but in the map built by load_all_control_files the entry
keyed "m" is the overlay's recipe, not the manifest's: the manifest is
added last with map::emplace, which does not overwrite the overlay
entry inserted first.  So the claimed manifest-over-overlay precedence
fails for load_all_control_files. -/
theorem manifest_load_all_counterexample :
    manifest_get_control_file ⟨"m", "proj/vcpkg.json"⟩
        ⟨fun _ => .ok (some ⟨"m", "ov"⟩), fun _ => .ok []⟩ ["ov"] "m" =
      .ok (some ⟨"m", "proj/vcpkg.json"⟩) ∧
    manifest_load_all ⟨"m", "proj/vcpkg.json"⟩
        ⟨fun _ => .ok (some ⟨"m", "ov"⟩), fun _ => .ok []⟩ ["ov"] [] =
      some [("m", ⟨"m", "ov"⟩)] ∧
    (manifest_load_all ⟨"m", "proj/vcpkg.json"⟩
        ⟨fun _ => .ok (some ⟨"m", "ov"⟩), fun _ => .ok []⟩ ["ov"] []).map
        (fun m => m.lookup "m") ≠
      some (some ⟨"m", "proj/vcpkg.json"⟩) := by
  refine ⟨rfl, rfl, ?_⟩
  show some (List.lookup "m" [("m", (⟨"m", "ov"⟩ : SCFL))]) ≠
      some (some ⟨"m", "proj/vcpkg.json"⟩)
  decide

/-- Claim C4 as amended: the manifest's name beats any overlay of the
same name in get_control_file; in load_all_control_files the manifest
is added after the overlays with map::emplace, so its entry appears
only when no overlay contributed that name — when the overlay map
already holds the manifest's name, that overlay entry is kept. -/
theorem manifest_provider_precedence (manifest : SCFL) (env : OverlayEnv)
    (dirs : List String) (out m : List (String × SCFL)) :
    manifest_get_control_file manifest env dirs manifest.name =
      .ok (some manifest) ∧
    (overlay_load_all env dirs out = some m →
      manifest_load_all manifest env dirs out =
        some (map_emplace m manifest.name manifest) ∧
      (m.lookup manifest.name = none →
        (map_emplace m manifest.name manifest).lookup manifest.name =
          some manifest) ∧
      (∀ v, m.lookup manifest.name = some v →
        map_emplace m manifest.name manifest = m)) := by
  constructor
  · unfold manifest_get_control_file
    rw [if_pos rfl]
  · intro hov
    refine ⟨?_, ?_, ?_⟩
    · unfold manifest_load_all
      rw [hov]
    · intro hnone
      unfold map_emplace
      rw [hnone]
      simp [List.lookup]
    · intro v hv
      unfold map_emplace
      rw [hv]

/-- Witness for manifest_provider_precedence: the amended behaviour at
concrete inputs — a manifest-named overlay keeps its map entry, and an
unrelated overlay lets the manifest in. -/
theorem manifest_provider_precedence_witness :
    manifest_get_control_file ⟨"m", "proj/vcpkg.json"⟩
        ⟨fun _ => .ok (some ⟨"m", "ov"⟩), fun _ => .ok []⟩ ["ov"] "m" =
      .ok (some ⟨"m", "proj/vcpkg.json"⟩) ∧
    map_emplace [("m", ⟨"m", "ov"⟩)] "m" ⟨"m", "proj/vcpkg.json"⟩ =
      [("m", ⟨"m", "ov"⟩)] ∧
    map_emplace [("zlib", ⟨"zlib", "ov"⟩)] "m" ⟨"m", "proj/vcpkg.json"⟩ =
      ("m", ⟨"m", "proj/vcpkg.json"⟩) :: [("zlib", ⟨"zlib", "ov"⟩)] := by
  have h1 := (manifest_provider_precedence ⟨"m", "proj/vcpkg.json"⟩
      ⟨fun _ => .ok (some ⟨"m", "ov"⟩), fun _ => .ok []⟩ ["ov"] []
      [("m", ⟨"m", "ov"⟩)]).1
  have h2 := ((manifest_provider_precedence ⟨"m", "proj/vcpkg.json"⟩
      ⟨fun _ => .ok (some ⟨"m", "ov"⟩), fun _ => .ok []⟩ ["ov"] []
      [("m", ⟨"m", "ov"⟩)]).2 rfl).2.2 ⟨"m", "ov"⟩ rfl
  have h3 := ((manifest_provider_precedence ⟨"m", "proj/vcpkg.json"⟩
      ⟨fun _ => .ok none, fun _ => .ok []⟩ []
      [("zlib", ⟨"zlib", "ov"⟩)]
      [("zlib", ⟨"zlib", "ov"⟩)]).2 rfl).2.1 rfl
  refine ⟨h1, h2, ?_⟩
  unfold map_emplace
  rfl

/-! ## Filesystem-variant registry path validation (claim C6) -/

/-- Strings::contains(path, "//"): two consecutive slashes anywhere. -/
def has_double_slash : List Char → Bool
  | [] => false
  | [_] => false
  | a :: b :: rest =>
    if a = '/' ∧ b = '/' then true else has_double_slash (b :: rest)

/-- The iterator loop of VersionDbEntryDeserializer::visit_object for
the filesystem variant: scan for each slash; the characters that
follow it may not be exactly one dot or exactly two dots (ending the
string or followed by another slash).  The C++ loop resumes its
slash-search just past the characters it inspected; since those
characters are never slashes, resuming at the character right after
the current slash finds exactly the same slashes, which is how the
recursion below proceeds. -/
def registry_path_dots_ok : List Char → Bool
  | [] => true
  | c :: rest =>
    if c = '/' then
      match rest with
      | [] => true
      | c1 :: rest1 =>
        if c1 = '.' then
          match rest1 with
          | [] => false
          | c2 :: rest2 =>
            if c2 = '/' then false
            else if c2 = '.' then
              match rest2 with
              | [] => false
              | c3 :: _ =>
                if c3 = '/' then false
                else registry_path_dots_ok rest
            else registry_path_dots_ok rest
        else registry_path_dots_ok rest
    else registry_path_dots_ok rest

/-- Embedding of the "path" handling in
VersionDbEntryDeserializer::visit_object, filesystem variant: the
string must start with dollar-slash, contain neither a backslash nor
a double slash, and pass the dot-component loop; an accepted path
resolves to registry_root joined with the substring after the
dollar-slash. -/
def visit_registry_path (registry_root : String) (path_res : String) :
    Option String :=
  if path_res.data.take 2 ≠ ['$', '/'] then none
  else if path_res.data.contains '\\' ∨ has_double_slash path_res.data then
    none
  else if registry_path_dots_ok path_res.data then
    some (path_concat registry_root (String.mk (path_res.data.drop 2)))
  else none

/-- Split a character list at every slash; always nonempty, one entry
per path component (empty components for leading, trailing or doubled
slashes). -/
def split_slash : List Char → List (List Char)
  | [] => [[]]
  | c :: rest =>
    if c = '/' then [] :: split_slash rest
    else
      match split_slash rest with
      | [] => [[c]]
      | comp :: comps => (c :: comp) :: comps

/-- A path component that is neither "." nor "..". -/
def comp_ok (comp : List Char) : Bool :=
  decide (comp ≠ ['.'] ∧ comp ≠ ['.', '.'])

/-- The spec-side statement of invariant 2 for claim C6, from the
spec's words: the path begins with dollar-slash, contains no
backslash, no double slash, and no "." or ".." path components. -/
def spec_registry_path_ok (p : String) : Bool :=
  decide (p.data.take 2 = ['$', '/']) &&
  !p.data.contains '\\' &&
  !has_double_slash p.data &&
  (split_slash p.data).all comp_ok

theorem split_slash_cons_exists :
    ∀ l : List Char, ∃ a as, split_slash l = a :: as := by
  intro l
  cases l with
  | nil => exact ⟨[], [], rfl⟩
  | cons c rest =>
    by_cases hc : c = '/'
    · exact ⟨[], split_slash rest, by simp [split_slash, hc]⟩
    · rcases hrec : split_slash rest with _ | ⟨a, as⟩
      · exact ⟨[c], [], by simp [split_slash, hc, hrec]⟩
      · exact ⟨c :: a, as, by simp [split_slash, hc, hrec]⟩

theorem split_slash_slash (l : List Char) :
    split_slash ('/' :: l) = [] :: split_slash l := by
  simp [split_slash]

theorem split_slash_other (c : Char) (l : List Char) (a : List Char)
    (as : List (List Char)) (hc : c ≠ '/')
    (h : split_slash l = a :: as) :
    split_slash (c :: l) = (c :: a) :: as := by
  simp [split_slash, hc, h]

theorem comp_ok_of_head_ne (c : Char) (x : List Char) (h : c ≠ '.') :
    comp_ok (c :: x) = true := by
  unfold comp_ok
  rw [decide_eq_true_iff]
  constructor
  · intro hcon
    exact h (List.cons.injEq _ _ _ _ ▸ hcon).1
  · intro hcon
    exact h (List.cons.injEq _ _ _ _ ▸ hcon).1

theorem comp_ok_of_two_dots_cons (c : Char) (x : List Char) :
    comp_ok ('.' :: '.' :: c :: x) = true := by
  unfold comp_ok
  rw [decide_eq_true_iff]
  constructor
  · intro hcon
    have := congrArg List.length hcon
    simp at this
  · intro hcon
    have := congrArg List.length hcon
    simp at this

theorem comp_ok_of_dot_cons_ne (c : Char) (x : List Char) (h : c ≠ '.') :
    comp_ok ('.' :: c :: x) = true := by
  unfold comp_ok
  rw [decide_eq_true_iff]
  constructor
  · intro hcon
    have := congrArg List.length hcon
    simp at this
  · intro hcon
    exact h (List.cons.injEq _ _ _ _ ▸
      (List.cons.injEq _ _ _ _ ▸ hcon).2).1

/-- Splitting after a non-slash head only lengthens the first
component: the components after the first stay the same. -/
theorem split_slash_tail_cons (c : Char) (rest : List Char) (hc : c ≠ '/') :
    (split_slash (c :: rest)).tail = (split_slash rest).tail := by
  rcases split_slash_cons_exists rest with ⟨a, as, ha⟩
  rw [split_slash_other c rest a as hc ha, ha]
  rfl

theorem dots_ok_iff :
    ∀ l : List Char,
      registry_path_dots_ok l = true ↔
        ((split_slash l).tail).all comp_ok = true := by
  intro l
  induction l with
  | nil => simp [registry_path_dots_ok, split_slash]
  | cons c rest ih =>
    by_cases hc : c = '/'
    · subst hc
      rw [split_slash_slash, List.tail_cons]
      match rest with
      | [] =>
        simp [registry_path_dots_ok, split_slash, comp_ok]
      | c1 :: rest1 =>
        by_cases h1 : c1 = '.'
        · subst h1
          match rest1 with
          | [] =>
            have hsp : split_slash ['.'] = [['.']] :=
              split_slash_other '.' [] [] [] (by decide) rfl
            rw [hsp]
            simp [registry_path_dots_ok, comp_ok]
          | c2 :: rest2 =>
            by_cases h2 : c2 = '/'
            · subst h2
              have hsp : split_slash ('.' :: '/' :: rest2) =
                  ['.'] :: split_slash rest2 :=
                split_slash_other '.' _ [] (split_slash rest2)
                  (by decide) (split_slash_slash rest2)
              rw [hsp]
              simp [registry_path_dots_ok, comp_ok]
            · by_cases h3 : c2 = '.'
              · subst h3
                match rest2 with
                | [] =>
                  have hsp : split_slash ['.', '.'] = [['.', '.']] :=
                    split_slash_other '.' _ ['.'] [] (by decide)
                      (split_slash_other '.' [] [] [] (by decide) rfl)
                  rw [hsp]
                  simp [registry_path_dots_ok, comp_ok]
                | c3 :: rest3 =>
                  by_cases h4 : c3 = '/'
                  · subst h4
                    have hsp : split_slash ('.' :: '.' :: '/' :: rest3) =
                        ['.', '.'] :: split_slash rest3 :=
                      split_slash_other '.' _ ['.'] (split_slash rest3)
                        (by decide)
                        (split_slash_other '.' _ [] (split_slash rest3)
                          (by decide) (split_slash_slash rest3))
                    rw [hsp]
                    simp [registry_path_dots_ok, comp_ok]
                  · rcases split_slash_cons_exists rest3 with ⟨a, as, ha⟩
                    have hsp : split_slash ('.' :: '.' :: c3 :: rest3) =
                        ('.' :: '.' :: c3 :: a) :: as :=
                      split_slash_other '.' _ ('.' :: c3 :: a) as
                        (by decide)
                        (split_slash_other '.' _ (c3 :: a) as (by decide)
                          (split_slash_other c3 _ a as h4 ha))
                    have hlhs : registry_path_dots_ok
                        ('/' :: '.' :: '.' :: c3 :: rest3) =
                        registry_path_dots_ok ('.' :: '.' :: c3 :: rest3) := by
                      simp [registry_path_dots_ok, h4]
                    have hih := ih
                    rw [split_slash_other '.' _ ('.' :: c3 :: a) as
                        (by decide)
                        (split_slash_other '.' _ (c3 :: a) as (by decide)
                          (split_slash_other c3 _ a as h4 ha)),
                      List.tail_cons] at hih
                    rw [hlhs, hsp, List.all_cons,
                      comp_ok_of_two_dots_cons, Bool.true_and]
                    exact hih
              · rcases split_slash_cons_exists rest2 with ⟨a, as, ha⟩
                have hsp : split_slash ('.' :: c2 :: rest2) =
                    ('.' :: c2 :: a) :: as :=
                  split_slash_other '.' _ (c2 :: a) as (by decide)
                    (split_slash_other c2 _ a as h2 ha)
                have hlhs : registry_path_dots_ok
                    ('/' :: '.' :: c2 :: rest2) =
                    registry_path_dots_ok ('.' :: c2 :: rest2) := by
                  simp [registry_path_dots_ok, h2, h3]
                have hih := ih
                rw [hsp, List.tail_cons] at hih
                rw [hlhs, hsp, List.all_cons,
                  comp_ok_of_dot_cons_ne c2 a h3, Bool.true_and]
                exact hih
        · have hlhs : registry_path_dots_ok ('/' :: c1 :: rest1) =
              registry_path_dots_ok (c1 :: rest1) := by
            simp [registry_path_dots_ok, h1]
          rw [hlhs]
          by_cases hc1 : c1 = '/'
          · subst hc1
            rw [split_slash_slash, List.all_cons]
            have hcomp : comp_ok ([] : List Char) = true := by
              simp [comp_ok]
            rw [hcomp, Bool.true_and]
            rw [split_slash_slash, List.tail_cons] at ih
            exact ih
          · rcases split_slash_cons_exists rest1 with ⟨a, as, ha⟩
            rw [split_slash_other c1 _ a as hc1 ha, List.all_cons,
              comp_ok_of_head_ne c1 a h1, Bool.true_and]
            rw [split_slash_other c1 _ a as hc1 ha, List.tail_cons] at ih
            exact ih
    · have hlhs : registry_path_dots_ok (c :: rest) =
          registry_path_dots_ok rest := by
        simp [registry_path_dots_ok, hc]
      rw [hlhs, split_slash_tail_cons c rest hc]
      exact ih

theorem take_two_eq_cons (l : List Char) (a b : Char)
    (h : l.take 2 = [a, b]) : ∃ t, l = a :: b :: t := by
  match l with
  | [] => simp at h
  | [x] => simp at h
  | x :: y :: t =>
    simp [List.take] at h
    exact ⟨t, by rw [h.1, h.2]⟩

/-- Claim C6: the filesystem-variant version-db entry deserializer
accepts a path string iff it begins with dollar-slash and contains no
backslash, no double slash, and no "." or ".." path components; the
claim's concrete inputs behave as listed, and every accepted path
resolves to the registry root joined with the substring after the
dollar-slash. -/
theorem registry_path_validation_spec :
    (∀ (registry_root p : String),
      ((visit_registry_path registry_root p).isSome = true ↔
        spec_registry_path_ok p = true) ∧
      (∀ r, visit_registry_path registry_root p = some r →
        r = path_concat registry_root (String.mk (p.data.drop 2)))) ∧
    visit_registry_path "R" "$/foo\\bar" = none ∧
    visit_registry_path "R" "$/foo//bar" = none ∧
    visit_registry_path "R" "$/./foo" = none ∧
    visit_registry_path "R" "$/foo/../bar" = none ∧
    visit_registry_path "R" "foo" = none ∧
    visit_registry_path "R" "$/foo/bar" = some "R/foo/bar" := by
  refine ⟨?_, by decide, by decide, by decide, by decide, by decide,
    by decide⟩
  intro registry_root p
  constructor
  · unfold visit_registry_path spec_registry_path_ok
    by_cases ht : p.data.take 2 = ['$', '/']
    · rw [if_neg (by simp [ht])]
      rcases take_two_eq_cons p.data '$' '/' ht with ⟨t, hp⟩
      have hsp : split_slash p.data = ['$'] :: split_slash t := by
        rw [hp]
        exact split_slash_other '$' _ [] (split_slash t) (by decide)
          (split_slash_slash t)
      have hdots : registry_path_dots_ok p.data = true ↔
          (split_slash t).all comp_ok = true := by
        rw [dots_ok_iff p.data, hsp, List.tail_cons]
      by_cases hbs : p.data.contains '\\' ∨ has_double_slash p.data
      · rw [if_pos hbs]
        have hrhs : (decide (p.data.take 2 = ['$', '/']) &&
            !p.data.contains '\\' && !has_double_slash p.data &&
            (split_slash p.data).all comp_ok) = false := by
          rcases hbs with hbs | hbs
          · rw [hbs]
            simp
          · rw [hbs]
            simp
        rw [hrhs]
        simp
      · rw [if_neg hbs]
        have hb1 : p.data.contains '\\' = false := by
          rcases h2 : p.data.contains '\\' with _ | _
          · rfl
          · exact absurd (Or.inl h2) hbs
        have hb2 : has_double_slash p.data = false := by
          rcases h2 : has_double_slash p.data with _ | _
          · rfl
          · exact absurd (Or.inr h2) hbs
        by_cases hd : registry_path_dots_ok p.data = true
        · rw [if_pos hd]
          have hall : (split_slash p.data).all comp_ok = true := by
            rw [hsp, List.all_cons]
            have hdollar : comp_ok ['$'] = true := by decide
            rw [hdollar, Bool.true_and]
            exact hdots.mp hd
          have hdec : decide (p.data.take 2 = ['$', '/']) = true := by
            rw [decide_eq_true_iff]
            exact ht
          rw [hb1, hb2, hall, hdec]
          simp
        · rw [if_neg hd]
          have hall : (split_slash p.data).all comp_ok = false := by
            rcases h2 : (split_slash p.data).all comp_ok with _ | _
            · rfl
            · rw [hsp, List.all_cons, Bool.and_eq_true] at h2
              exact absurd (hdots.mpr h2.2) hd
          rw [hall]
          simp
    · rw [if_pos ht]
      simp [ht]
  · intro r h
    unfold visit_registry_path at h
    split_ifs at h
    exact (Option.some.inj h).symm

/-- Witness for registry_path_validation_spec: the general part applied
at a concrete accepted path. -/
theorem registry_path_validation_spec_witness :
    ((visit_registry_path "R" "$/foo/bar").isSome = true ↔
      spec_registry_path_ok "$/foo/bar" = true) ∧
    "R/foo/bar" = path_concat "R" (String.mk ("$/foo/bar".data.drop 2)) :=
  ⟨(registry_path_validation_spec.1 "R" "$/foo/bar").1,
   (registry_path_validation_spec.1 "R" "$/foo/bar").2 "R/foo/bar"
     (by decide)⟩

end Vcpkg
